import Mathlib

/-!
Verification of the CSV-analysis chat agent.

This file gives a shallow embedding, in Lean, of the parts of the
repository that the specification's testable claims are about:

* `src/lib/csv-analysis-service.ts` — CSV parsing (`parseCsv`), schema
  inference (`getCsvSchema`), structured filtering (`filterData`) and the
  SQL execution path (`executeSqlQuery`) with its SELECT-only gate and
  table-name rewrite;
* `src/lib/langgraph/nodes/agent-node.ts` — the bounded tool-call loop;
* `src/unnamed` (saveMessageNode) — message persistence;
* `src/lib/langgraph-agent-service.ts` — `streamAgent`: session
  validation, user-message creation, graph execution and the
  token-streaming event loop.

JavaScript strings are modelled as `List Char`; JavaScript `undefined`
is modelled by `Option`.  External collaborators (the SQLite engine, the
RegExp engine, the language model, tool execution) are parameters of the
embedded functions, so theorems quantify over their behaviour.
-/

set_option maxRecDepth 10000

/-- A JavaScript string, modelled as its character sequence. -/
abbrev JStr := List Char

/-- One parsed CSV row: an ordered association of column name to cell text
(the shape Papa.parse produces with `header: true`; JS objects keep key
insertion order).  A missing key models JS `undefined`. -/
abbrev CsvRow := List (String × JStr)

/-- Property lookup `row[k]`: `none` models JS `undefined`. -/
def jsLookup (row : CsvRow) (k : String) : Option JStr :=
  (row.find? (fun p => decide (p.1 = k))).map Prod.snd

/-- JS `String(value)` applied to a possibly-undefined value:
`String(undefined)` is the text `undefined`. -/
def jsStringOf : Option JStr → JStr
  | none => "undefined".data
  | some v => v

/-- Lower-casing of a JS string (`toLowerCase`), per character. -/
def lowerStr (s : JStr) : JStr := s.map Char.toLower

/-- Whitespace trim on both ends: JS `String.prototype.trim`, also what
`Number()` performs before parsing. -/
def jsTrimChars (s : JStr) : JStr :=
  ((s.dropWhile Char.isWhitespace).reverse.dropWhile Char.isWhitespace).reverse

/-- Value of a digit sequence read in base 10. -/
def digitsVal (ds : JStr) : Nat := ds.foldl (fun n c => n * 10 + (c.toNat - 48)) 0

/-- Mantissa of a JS decimal numeric literal: `digits [. digits]` or
`. digits`.  Returns integer part, fraction digits value, fraction length
and the unconsumed remainder. -/
def parseMantissa (cs : JStr) : Option (Nat × Nat × Nat × JStr) :=
  let ds := cs.takeWhile Char.isDigit
  let r1 := cs.dropWhile Char.isDigit
  if ds.isEmpty then
    match cs with
    | '.' :: r2 =>
      let fs := r2.takeWhile Char.isDigit
      let r3 := r2.dropWhile Char.isDigit
      if fs.isEmpty then none else some (0, digitsVal fs, fs.length, r3)
    | _ => none
  else
    match r1 with
    | '.' :: r2 =>
      let fs := r2.takeWhile Char.isDigit
      let r3 := r2.dropWhile Char.isDigit
      some (digitsVal ds, digitsVal fs, fs.length, r3)
    | _ => some (digitsVal ds, 0, 0, r1)

/-- Optional exponent part `e[+-]digits` of a JS numeric literal. -/
def parseExponent (cs : JStr) : Option (Int × JStr) :=
  match cs with
  | c :: r1 =>
    if c = 'e' ∨ c = 'E' then
      let sr : Int × JStr :=
        match r1 with
        | '+' :: r => (1, r)
        | '-' :: r => (-1, r)
        | _ => (1, r1)
      let ds := sr.2.takeWhile Char.isDigit
      let r3 := sr.2.dropWhile Char.isDigit
      if ds.isEmpty then none else some (sr.1 * (digitsVal ds : Int), r3)
    else some (0, cs)
  | [] => some (0, [])

/-- JS `Number(s)` on a string, restricted to the decimal fragment of the
numeric-literal grammar (`[+-]? (digits [. digits]? | . digits)
([eE][+-]?digits)?` after trimming; the empty/blank string coerces to 0).
`none` models `NaN`.  Hex, octal, binary and `Infinity` literals are not
modelled; no value exercised below uses them, and `Infinity` behaves like
`none` for every caller here because every caller also requires
`isFinite`. -/
def jsToNumber (s : JStr) : Option Rat :=
  let t := jsTrimChars s
  if t.isEmpty then some 0
  else
    let sr : Int × JStr :=
      match t with
      | '+' :: r => (1, r)
      | '-' :: r => (-1, r)
      | _ => (1, t)
    match parseMantissa sr.2 with
    | none => none
    | some (ip, fp, fl, r1) =>
      match parseExponent r1 with
      | none => none
      | some (e, r2) =>
        if r2.isEmpty then
          some ((sr.1 : Rat) * ((ip : Rat) + (fp : Rat) / (10 : Rat) ^ fl) * (10 : Rat) ^ e)
        else none

/-- The test `!isNaN(Number(v)) && isFinite(Number(v))` used by
`getCsvSchema` to classify a sampled value as numeric. -/
def jsNumberOk (s : JStr) : Bool := (jsToNumber s).isSome

/-- Result shape of `parseCsv` (interface `ParsedCsvData`). -/
structure ParsedCsvData where
  headers : List String
  rows : List CsvRow
  rowCount : Nat
deriving DecidableEq

/-- Column projection applied per row when the `columns` option is given
(`parseCsv`, src/lib/csv-analysis-service.ts lines 53–62). -/
def projectRow (avail : List String) (row : CsvRow) : CsvRow :=
  avail.filterMap (fun c => (jsLookup row c).map (fun v => (c, v)))

/-- Core of `CsvAnalysisService.parseCsv` after Papa.parse has produced the
row list (the file read and the delimiter parsing are external): header
extraction from the first row, optional column projection, optional row
limit (note the JS truthiness test `if (options?.limit)`: a limit of 0 is
falsy and disables slicing), and `rowCount = rows.length` computed AFTER
the limit is applied. -/
def parseCsvCore (parsedRows : List CsvRow) (limit : Option Nat)
    (columns : Option (List String)) : ParsedCsvData :=
  let headers := ((parsedRows.head?).map (fun r => r.map Prod.fst)).getD []
  let rows1 :=
    match columns with
    | some cs =>
      if cs ≠ [] then parsedRows.map (projectRow (headers.filter (fun h => cs.contains h)))
      else parsedRows
    | none => parsedRows
  let rows2 :=
    match limit with
    | some l => if l ≠ 0 then rows1.take l else rows1
    | none => rows1
  let hs :=
    match columns with
    | some cs =>
      if cs ≠ [] then headers.filter (fun h => cs.contains h) else headers
    | none => headers
  ⟨hs, rows2, rows2.length⟩

/-- Result shape of `getCsvSchema` (interface `CsvSchema`). -/
structure CsvSchema where
  columns : List String
  rowCount : Nat
  numericColumns : List String
  textColumns : List String
deriving DecidableEq

/-- The per-header classification loop of `getCsvSchema` (lines 97–107):
for each header it reads `data.rows[0][header]` — the FIRST row only —
and, when that value is defined and non-empty, sorts the header into the
numeric or the text list by numeric coercion; headers whose first-row
value is undefined or empty are put in neither list. -/
def classifyColumns (firstRow : CsvRow) (headers : List String) :
    List String × List String :=
  match headers with
  | [] => ([], [])
  | h :: t =>
    let rest := classifyColumns firstRow t
    match jsLookup firstRow h with
    | none => rest
    | some v =>
      if v = [] then rest
      else if jsNumberOk v then (h :: rest.1, rest.2) else (rest.1, h :: rest.2)

/-- Core of `CsvAnalysisService.getCsvSchema` given the Papa-parsed rows of
the resource file: parse with `limit: 1000`, then classify column types
from the sample. -/
def getCsvSchemaCore (parsedRows : List CsvRow) : CsvSchema :=
  let data := parseCsvCore parsedRows (some 1000) none
  let nt :=
    match data.rows with
    | [] => ([], [])
    | r0 :: _ => classifyColumns r0 data.headers
  ⟨data.headers, data.rowCount, nt.1, nt.2⟩

/-- Filter operators of `CsvAnalysisService.filterData`. -/
inductive FilterOp
  | eq
  | gt
  | lt
  | gte
  | lte
  | contains
  | regex
deriving DecidableEq

/-- One filter condition (interface `Filter` of the source; renamed here
because `Filter` is taken by Mathlib). -/
structure CsvFilter where
  column : String
  operator : FilterOp
  value : JStr
deriving DecidableEq

/-- Bool test that `pat` occurs at the start of `s`. -/
def strStartsWith : JStr → JStr → Bool
  | _, [] => true
  | [], _ :: _ => false
  | a :: as, b :: bs => decide (a = b) && strStartsWith as bs

/-- JS `String.prototype.includes`: substring occurrence test. -/
def strIncludes (s pat : JStr) : Bool :=
  match s with
  | [] => pat.isEmpty
  | _ :: t => strStartsWith s pat || strIncludes t pat

/-- One condition of `filterData`'s predicate (the `switch` at lines
139–162).  `regexImpl` stands for the JS RegExp engine with the `i` flag:
`regexImpl pat = none` models the `RegExp` constructor throwing on an
invalid pattern `pat`, which the source catches and turns into `false`.
A `none` row value is JS `undefined`: loose equality with a string is
false, `Number(undefined)` is `NaN` (all comparisons false), and
`String(undefined)` is the text `undefined`. -/
def evalFilter (regexImpl : JStr → Option (JStr → Bool)) (row : CsvRow)
    (f : CsvFilter) : Bool :=
  let value := jsLookup row f.column
  match f.operator with
  | .eq =>
    match value with
    | some v => decide (v = f.value)
    | none => false
  | .gt =>
    match value.bind jsToNumber, jsToNumber f.value with
    | some a, some b => decide (b < a)
    | _, _ => false
  | .lt =>
    match value.bind jsToNumber, jsToNumber f.value with
    | some a, some b => decide (a < b)
    | _, _ => false
  | .gte =>
    match value.bind jsToNumber, jsToNumber f.value with
    | some a, some b => decide (b ≤ a)
    | _, _ => false
  | .lte =>
    match value.bind jsToNumber, jsToNumber f.value with
    | some a, some b => decide (a ≤ b)
    | _, _ => false
  | .contains => strIncludes (lowerStr (jsStringOf value)) (lowerStr f.value)
  | .regex =>
    match regexImpl f.value with
    | none => false
    | some test => test (jsStringOf value)

/-- `CsvAnalysisService.filterData`: keep the rows on which every listed
condition holds; headers are passed through and `rowCount` is recomputed
from the kept rows. -/
def filterData (regexImpl : JStr → Option (JStr → Bool)) (data : ParsedCsvData)
    (filters : List CsvFilter) : ParsedCsvData :=
  let filteredRows := data.rows.filter (fun row => filters.all (evalFilter regexImpl row))
  ⟨data.headers, filteredRows, filteredRows.length⟩

/-- JS word character `\w`: ASCII letter, digit or underscore. -/
def isWordChar (c : Char) : Bool := c.isAlpha || c.isDigit || c = '_'

/-- A single or double quotation mark, as in the rewrite pattern. -/
def isQuoteChar (c : Char) : Bool := c = '"' || c = '\''

/-- Consume the optional trailing quote of the rewrite pattern. -/
def afterOptQuote : JStr → JStr
  | [] => []
  | q :: r2 => if isQuoteChar q then r2 else q :: r2

/-- Remainder after matching the tail of the rewrite pattern starting at
the table name: an optional quote, one or more word characters (greedy),
then an optional quote.  `none`: no match at this position. -/
def matchTableName (cs : JStr) : Option JStr :=
  match cs with
  | [] => none
  | c :: rest =>
    if isQuoteChar c then
      match rest with
      | d :: rest2 =>
        if isWordChar d then some (afterOptQuote (rest2.dropWhile isWordChar))
        else none
      | [] => none
    else
      if isWordChar c then some (afterOptQuote (rest.dropWhile isWordChar))
      else none

/-- Tail of the rewrite pattern after the literal `FROM`: at least one
whitespace character (`\s+`, greedy), then the table-name part. -/
def matchFromTail : JStr → Option JStr
  | c :: rest2 =>
    if c.isWhitespace then matchTableName ((c :: rest2).dropWhile Char.isWhitespace)
    else none
  | [] => none

/-- Attempt to match the source's rewrite pattern
`FROM\s+["']?[\w_]+["']?` (case-insensitive) at the start of `cs`,
returning the remainder after the matched region. -/
def matchFromAt (cs : JStr) : Option JStr :=
  match cs with
  | f :: r :: o :: m :: rest =>
    if f.toLower = 'f' ∧ r.toLower = 'r' ∧ o.toLower = 'o' ∧ m.toLower = 'm' then
      matchFromTail rest
    else none
  | _ => none

/-- Replacement text inserted for each match. -/
def fromReplacement : JStr := "FROM csv_data".data

/-- Left-to-right global scan of JS
`replace(/FROM\s+["']?[\w_]+["']?/gi, 'FROM csv_data')`: at each position
try the pattern; on a match emit the replacement and resume after the
matched region, otherwise keep the character and move one position right.
The `fuel` argument only pays for termination: every step consumes at
least one character, so the initial call with `fuel = length` (see
`jsReplaceFromAll` and lemma `replaceFromAuxF_fuel`) never reaches the
fuel-exhaustion branch. -/
def replaceFromAuxF : Nat → JStr → JStr
  | _, [] => []
  | 0, l => l
  | fuel + 1, c :: cs =>
    match matchFromAt (c :: cs) with
    | some rem => fromReplacement ++ replaceFromAuxF fuel rem
    | none => c :: replaceFromAuxF fuel cs

/-- The table-name rewrite applied to a query string
(src/lib/csv-analysis-service.ts line 394). -/
def jsReplaceFromAll (s : String) : String := ⟨replaceFromAuxF s.data.length s.data⟩

/-- Observable side effects of one `executeSqlQuery` call, in order. -/
inductive SqlEffect
  | loadCsv (resourceId : String)
  | createDb
  | createTable
  | insertRows (n : Nat)
  | execSql (query : String)
  | closeDb
deriving DecidableEq

/-- Failure modes of `executeSqlQuery` (each raised as an `Error` in the
source; the spec names the first `UnsafeQueryError`). -/
inductive QueryError
  | unsafeQuery
  | resourceNotFound (resourceId : String)
  | sqlFailed (msg : String)
deriving DecidableEq

/-- Result shape of `executeSqlQuery`. -/
structure SqlResult where
  columns : List String
  rows : List CsvRow
  rowCount : Nat
deriving DecidableEq

/-- `CsvAnalysisService.executeSqlQuery`.  `resources` models
`loadCsvData` (resource lookup plus CSV parse; `none` = unknown resource
id, which throws).  `engine` models the better-sqlite3 in-memory database
evaluating the rewritten query text against the inserted data.  The
second component records the side effects in order: the guard rejects
non-SELECT text before anything else happens; an empty row set returns
early before the in-memory database is created; otherwise the database is
created, the table filled, the rewritten query executed and the database
closed (the `finally` block) on success and failure alike. -/
def executeSqlQuery (resources : String → Option ParsedCsvData)
    (engine : String → ParsedCsvData → Except String (List CsvRow))
    (resourceId : String) (sqlQuery : String) :
    Except QueryError SqlResult × List SqlEffect :=
  let trimmedQuery := jsTrimChars sqlQuery.data
  if ¬ (strStartsWith (lowerStr trimmedQuery) "select".data) then
    (.error .unsafeQuery, [])
  else
    match resources resourceId with
    | none => (.error (.resourceNotFound resourceId), [.loadCsv resourceId])
    | some data =>
      if data.rows = [] then
        (.ok ⟨[], [], 0⟩, [.loadCsv resourceId])
      else
        let safeQuery := jsReplaceFromAll ⟨trimmedQuery⟩
        let effects := [SqlEffect.loadCsv resourceId, .createDb, .createTable,
          .insertRows data.rows.length, .execSql safeQuery, .closeDb]
        match engine safeQuery data with
        | .ok results =>
          let resultColumns := ((results.head?).map (fun r => r.map Prod.fst)).getD []
          (.ok ⟨resultColumns, results, results.length⟩, effects)
        | .error msg => (.error (.sqlFailed msg), effects)

/-- Message roles stored in the conversation (agent-state.ts). -/
inductive Role
  | user
  | assistant
  | system
deriving DecidableEq

/-- One conversation turn as held in `AgentState.messages` (text-only
executions are modelled; the optional image attachments do not affect any
property below). -/
structure Message where
  role : Role
  content : JStr
deriving DecidableEq

/-- One persisted row of the `message` table. -/
structure MessageRecord where
  sessionId : String
  role : Role
  content : JStr
deriving DecidableEq

/-- The durable stores `streamAgent` touches: the session table (as the
set of existing session ids) and the message table in insertion order. -/
structure SystemState where
  sessions : List String
  messages : List MessageRecord
deriving DecidableEq

/-- LangChain message kinds flowing through `agentNode`'s loop. -/
inductive LMsg
  | systemMsg (content : JStr)
  | humanMsg (content : JStr)
  | aiMsg (content : JStr) (toolCalls : List String)
  | toolMsg (content : JStr)
deriving DecidableEq

/-- One model reply: the assistant text plus the requested tool calls
(each identified by its tool name; arguments and call ids are immaterial
to the claims and folded into `toolExec`). -/
structure ModelResponse where
  content : JStr
  toolCalls : List String
deriving DecidableEq

/-- History conversion at agent-node.ts lines 33–53: user turns become
HumanMessages, assistant turns AIMessages (with no tool calls), anything
else a SystemMessage.  Tool messages are never produced from history. -/
def toLangChainMsg (m : Message) : LMsg :=
  match m.role with
  | .user => .humanMsg m.content
  | .assistant => .aiMsg m.content []
  | .system => .systemMsg m.content

/-- The `while (iteration < maxIterations)` loop of `agentNode` (lines
100–144), with the remaining iteration budget as `fuel`: invoke the
model, append its reply; if it requested tool calls, append one tool
message per call (the `Promise.all` preserves request order) and loop,
else stop with the reply text.  Returns the accumulated message list, the
loop-set `responseContent` (`none` when the cap was hit before any
plain-text reply, leaving the variable at its initial empty string) and
the number of model invocations made. -/
def agentLoopGo (model : List LMsg → ModelResponse) (toolExec : String → JStr) :
    Nat → List LMsg → Nat → List LMsg × Option JStr × Nat
  | 0, msgs, calls => (msgs, none, calls)
  | fuel + 1, msgs, calls =>
    let resp := model msgs
    let msgs1 := msgs ++ [.aiMsg resp.content resp.toolCalls]
    if resp.toolCalls = [] then (msgs1, some resp.content, calls + 1)
    else
      agentLoopGo model toolExec fuel
        (msgs1 ++ resp.toolCalls.map (fun tc => .toolMsg (toolExec tc))) (calls + 1)

/-- `agentNode` (agent-node.ts): build the LangChain message list (system
prompt, converted history, current query), run the bounded loop with
`maxIterations = 5`, then the post-loop fallback of lines 147–152: when
the cap was hit, `responseContent` is taken from the LAST message only if
that last message is an AIMessage — after a tool round the last message
is a ToolMessage, so the fallback leaves the empty string.  Returns the
new `AgentState.messages` (history plus the user turn and the final
assistant turn), the internal LangChain message list, the final response
text, and the model invocation count. -/
def agentNodeCore (model : List LMsg → ModelResponse) (toolExec : String → JStr)
    (sysPrompt : JStr) (history : List Message) (currentQuery : JStr) :
    List Message × List LMsg × JStr × Nat :=
  let initMsgs := LMsg.systemMsg sysPrompt ::
    (history.map toLangChainMsg ++ [LMsg.humanMsg currentQuery])
  let r := agentLoopGo model toolExec 5 initMsgs 0
  let responseContent :=
    match r.2.1 with
    | some c => c
    | none =>
      match r.1.getLast? with
      | some (LMsg.aiMsg c _) => c
      | _ => []
  (history ++ [⟨Role.user, currentQuery⟩, ⟨Role.assistant, responseContent⟩],
   r.1, responseContent, r.2.2)

/-- The `findFirst` criterion of `saveMessageNode`: an existing record
with the same session id, role and content. -/
def recordMatches (sid : String) (m : Message) (r : MessageRecord) : Bool :=
  decide (r.sessionId = sid) && decide (r.role = m.role) && decide (r.content = m.content)

/-- `saveMessageNode` (src/unnamed/part_006): take the LAST TWO entries of
`state.messages` (`slice(-2)`), and for each one insert a message record
unless a record with the same session id, role and content already exists
(the duplicate check sees earlier inserts of the same call).  The session
timestamp update carries no message data and is tracked as an effect by
`runStreamAgent`. -/
def saveMessageNode (sid : String) (stateMessages : List Message)
    (db : List MessageRecord) : List MessageRecord :=
  let messagesToSave := stateMessages.drop (stateMessages.length - 2)
  if messagesToSave = [] then db
  else
    messagesToSave.foldl
      (fun acc m =>
        if acc.any (recordMatches sid m) then acc
        else acc ++ [⟨sid, m.role, m.content⟩])
      db

/-- Failure modes of `streamAgent` surfaced to the caller (the source
throws `Error('Session not found: ...')`; the spec calls it
`SessionNotFoundError`). -/
inductive AgentError
  | sessionNotFound (sessionId : String)
deriving DecidableEq

/-- Storage and model side effects of one `streamAgent` execution, in
order. -/
inductive StoreEffect
  | createUserMessage (r : MessageRecord)
  | modelInvoke
  | persistMessage (r : MessageRecord)
  | sessionUpdate
deriving DecidableEq

/-- `LangGraphAgentService.streamAgent` up to persistence (the token
stream is modelled separately by `processEvents`): validate that the
session exists — failing with no lookup, write or model call otherwise —
then load the session's history, create the user message record, run the
graph (`loadCsvMetadata` only reads; `agentNode`; `saveMessage`) and
return the final stores together with the ordered effect log. -/
def runStreamAgent (model : List LMsg → ModelResponse) (toolExec : String → JStr)
    (sysPrompt : JStr) (st : SystemState) (sessionId : String) (userMessage : JStr) :
    Except AgentError Unit × SystemState × List StoreEffect :=
  if sessionId ∈ st.sessions then
    let history := (st.messages.filter (fun r => decide (r.sessionId = sessionId))).map
      (fun r => (⟨r.role, r.content⟩ : Message))
    let userRec : MessageRecord := ⟨sessionId, .user, userMessage⟩
    let db1 := st.messages ++ [userRec]
    let agentResult := agentNodeCore model toolExec sysPrompt history userMessage
    let db2 := saveMessageNode sessionId agentResult.1 db1
    (.ok (), ⟨st.sessions, db2⟩,
      StoreEffect.createUserMessage userRec ::
        (List.replicate agentResult.2.2.2 StoreEffect.modelInvoke ++
          (db2.drop db1.length).map StoreEffect.persistMessage ++ [StoreEffect.sessionUpdate]))
  else (.error (.sessionNotFound sessionId), st, [])

/-- Events observed by `streamAgent`'s `for await` loop
(langgraph-agent-service.ts lines 86–113).  A `some` content is a string
payload (possibly empty); `none` models an absent or non-string payload. -/
inductive StreamEvent
  | chatModelStream (content : Option JStr)
  | chatModelEnd (content : Option JStr)
  | otherEvent
deriving DecidableEq

/-- The streaming loop of `streamAgent`: stream-chunk events append to
`accumulatedContent` and are yielded as-is (empty or non-string chunks
are skipped); a model-end event whose full text is non-empty and differs
from the accumulated text yields `content.slice(accumulated.length)` once
when that remainder is non-empty.  Returns the yielded fragments in
order; the second argument is the running `accumulatedContent`. -/
def processEvents : List StreamEvent → JStr → List JStr
  | [], _ => []
  | ev :: rest, acc =>
    match ev with
    | .chatModelStream c =>
      match c with
      | some content =>
        if content ≠ [] then content :: processEvents rest (acc ++ content)
        else processEvents rest acc
      | none => processEvents rest acc
    | .chatModelEnd c =>
      match c with
      | some content =>
        if content ≠ [] ∧ content ≠ acc then
          let remaining := content.drop acc.length
          if remaining ≠ [] then remaining :: processEvents rest content
          else processEvents rest acc
        else processEvents rest acc
      | none => processEvents rest acc
    | .otherEvent => processEvents rest acc

/-- Test for a LangChain tool message (the shape the stub models key
off). -/
def isToolMsg : LMsg → Bool
  | .toolMsg _ => true
  | _ => false

/-- The text of the last assistant (AI) message in a LangChain message
list, if any. -/
def lastAiContent (msgs : List LMsg) : Option JStr :=
  match msgs.reverse.find? (fun m => match m with | LMsg.aiMsg _ _ => true | _ => false) with
  | some (LMsg.aiMsg c _) => some c
  | _ => none

/-- Model stub that requests a tool call on every invocation, with
non-empty assistant text each time. -/
def alwaysToolModel : List LMsg → ModelResponse :=
  fun _ => ⟨"thinking".data, ["execute_sql_query"]⟩

/-- Model stub that issues exactly one tool call and then — once a tool
result is visible in the conversation — answers with plain text `t`. -/
def oneToolModel (t : JStr) : List LMsg → ModelResponse :=
  fun msgs =>
    if msgs.any isToolMsg then ⟨t, []⟩
    else ⟨"calling tool".data, ["execute_sql_query"]⟩

/-- The `agentNode` run on the always-tool-calling stub used to settle
the loop-cap claim: empty prior history, query text `hi`. -/
def capRun : List Message × List LMsg × JStr × Nat :=
  agentNodeCore alwaysToolModel (fun _ => "ok".data) [] [] "hi".data

/-- Stores for the one-tool-call execution scenario: one session, empty
message table. -/
def oneToolState : SystemState := ⟨["s1"], []⟩

/-- The full `streamAgent` execution of the spec's tool-call-loop
scenario: the model first requests one tool call, then answers. -/
def oneToolRun : Except AgentError Unit × SystemState × List StoreEffect :=
  runStreamAgent (oneToolModel "The average is 116.67".data) (fun _ => "116.67".data)
    [] oneToolState "s1" "what is the average Amount?".data

/-- First-row numeric test actually applied by `getCsvSchema` to a header:
the first row's value is present, non-empty and numerically coercible. -/
def firstRowNumeric (r0 : CsvRow) (h : String) : Bool :=
  match jsLookup r0 h with
  | some v => decide (v ≠ []) && jsNumberOk v
  | none => false

/-- First-row text test actually applied by `getCsvSchema` to a header:
the first row's value is present, non-empty and not numerically
coercible. -/
def firstRowText (r0 : CsvRow) (h : String) : Bool :=
  match jsLookup r0 h with
  | some v => decide (v ≠ []) && ! jsNumberOk v
  | none => false

/-- A query text containing `n` separate `FROM t` table references. -/
def fromQueryChars : Nat → JStr
  | 0 => []
  | n + 1 => "FROM t ".data ++ fromQueryChars n

/-- The same query with every one of the `n` table references rewritten
to `csv_data`. -/
def fromQueryRewrittenChars : Nat → JStr
  | 0 => []
  | n + 1 => "FROM csv_data ".data ++ fromQueryRewrittenChars n

/-- Helper: the sample row count computed by the schema path is the row
total capped by the 1000-row sample limit. -/
theorem getCsvSchemaCore_rowCount_min (parsedRows : List CsvRow) :
    (getCsvSchemaCore parsedRows).rowCount = min 1000 parsedRows.length := by
  simp [getCsvSchemaCore, parseCsvCore, List.length_take]

/-- Helper: the classification loop keeps exactly the headers passing the
first-row numeric (resp. text) test, in header order. -/
theorem classifyColumns_eq_filters (r0 : CsvRow) (headers : List String) :
    classifyColumns r0 headers
      = (headers.filter (firstRowNumeric r0), headers.filter (firstRowText r0)) := by
  induction headers with
  | nil => rfl
  | cons h t ih =>
    simp only [classifyColumns, ih]
    rcases hv : jsLookup r0 h with _ | v
    · simp [List.filter_cons, firstRowNumeric, firstRowText, hv]
    · by_cases he : v = []
      · simp [List.filter_cons, firstRowNumeric, firstRowText, hv, he]
      · by_cases hn : jsNumberOk v
        · simp [List.filter_cons, firstRowNumeric, firstRowText, hv, he, hn]
        · simp [List.filter_cons, firstRowNumeric, firstRowText, hv, he, hn]

/-- C1.  Every query string that does not begin with a SELECT keyword
(leading whitespace trimmed, case-insensitive) is rejected by
`executeSqlQuery` with the unsafe-query error before anything else
happens: the result is the error and the effect log is empty — in
particular the CSV is not loaded and the in-memory store is never
created or touched. -/
theorem executeSqlQuery_rejects_non_select
    (resources : String → Option ParsedCsvData)
    (engine : String → ParsedCsvData → Except String (List CsvRow))
    (resourceId sqlQuery : String)
    (h : strStartsWith (lowerStr (jsTrimChars sqlQuery.data)) "select".data = false) :
    executeSqlQuery resources engine resourceId sqlQuery
      = (.error QueryError.unsafeQuery, []) := by
  simp [executeSqlQuery, h]

/-- Witness for C1 at the spec's own concrete scenario, a DROP TABLE
statement. -/
theorem executeSqlQuery_rejects_non_select_witness :
    executeSqlQuery (fun _ => none) (fun _ _ => .ok []) "r1" "DROP TABLE csv_data"
      = (.error QueryError.unsafeQuery, []) :=
  executeSqlQuery_rejects_non_select _ _ _ _ (by decide)

/-- C10.  A well-formed SELECT query against a resource whose parsed data
has zero rows returns empty columns, empty rows and row count 0 without
error; the only effect is the CSV load — the in-memory store is never
created and no query text is ever executed. -/
theorem executeSqlQuery_empty_data_short_circuits
    (resources : String → Option ParsedCsvData)
    (engine : String → ParsedCsvData → Except String (List CsvRow))
    (resourceId sqlQuery : String) (data : ParsedCsvData)
    (hq : strStartsWith (lowerStr (jsTrimChars sqlQuery.data)) "select".data = true)
    (hr : resources resourceId = some data)
    (he : data.rows = []) :
    executeSqlQuery resources engine resourceId sqlQuery
        = (.ok ⟨[], [], 0⟩, [SqlEffect.loadCsv resourceId])
      ∧ SqlEffect.createDb ∉ (executeSqlQuery resources engine resourceId sqlQuery).2
      ∧ ∀ s, SqlEffect.execSql s ∉ (executeSqlQuery resources engine resourceId sqlQuery).2 := by
  have h1 : executeSqlQuery resources engine resourceId sqlQuery
      = (.ok ⟨[], [], 0⟩, [SqlEffect.loadCsv resourceId]) := by
    simp [executeSqlQuery, hq, hr, he]
  refine ⟨h1, ?_, ?_⟩
  · rw [h1]; simp
  · intro s; rw [h1]; simp

/-- Witness for C10 on a resource with headers but no data rows. -/
theorem executeSqlQuery_empty_data_short_circuits_witness :
    executeSqlQuery (fun _ => some ⟨["a"], [], 0⟩) (fun _ _ => .ok []) "r1" "SELECT * FROM t"
      = (.ok ⟨[], [], 0⟩, [SqlEffect.loadCsv "r1"]) :=
  (executeSqlQuery_empty_data_short_circuits (fun _ => some ⟨["a"], [], 0⟩)
    (fun _ _ => .ok []) "r1" "SELECT * FROM t" ⟨["a"], [], 0⟩
    (by decide) rfl rfl).1

/-- C7 counterexample.  For a file with 1001 parsed rows, `getCsvSchema`
reports `rowCount = 1000` — the sample size — not the true total 1001:
the claim that the returned row count is the resource's total row count
is false for files larger than the 1000-row sample. -/
theorem getCsvSchema_rowCount_caps_at_sample_counterexample :
    (getCsvSchemaCore (List.replicate 1001 [("a", "1".data)])).rowCount = 1000
    ∧ (List.replicate 1001 ([("a", "1".data)] : CsvRow)).length = 1001
    ∧ (1000 : Nat) ≠ 1001 := by
  refine ⟨?_, by simp, by decide⟩
  rw [getCsvSchemaCore_rowCount_min]
  simp

/-- C7 amended.  `schema` loads at most a 1000-row sample and its
returned row count is the minimum of 1000 and the true total: the total
for files of at most 1000 rows (e.g. 3 for a 3-row file), but the sample
bound 1000 for larger files. -/
theorem getCsvSchema_rowCount_is_min_of_total_and_1000 (parsedRows : List CsvRow) :
    (getCsvSchemaCore parsedRows).rowCount = min 1000 parsedRows.length :=
  getCsvSchemaCore_rowCount_min parsedRows

/-- C8 counterexample.  A column whose first-row value is empty but whose
second-row value is the numeric text `5` is classified into NEITHER the
numeric nor the text column list: later sampled values are never
consulted, contradicting the claim that the first non-empty sampled
value classifies the column. -/
theorem getCsvSchema_skips_column_with_empty_first_row_value :
    (getCsvSchemaCore [[("a", [])], [("a", "5".data)]]).numericColumns = []
    ∧ (getCsvSchemaCore [[("a", [])], [("a", "5".data)]]).textColumns = []
    ∧ jsNumberOk "5".data = true := by
  decide

/-- C8 amended.  Column classification inspects only the FIRST sampled
row: a header is numeric exactly when its first-row value is present,
non-empty and numerically coercible, textual exactly when it is present,
non-empty and not coercible, and a header whose first-row value is
missing or empty lands in neither list regardless of later rows. -/
theorem getCsvSchema_classifies_from_first_row_only (r0 : CsvRow) (rest : List CsvRow) :
    (getCsvSchemaCore (r0 :: rest)).numericColumns
        = (r0.map Prod.fst).filter (firstRowNumeric r0)
    ∧ (getCsvSchemaCore (r0 :: rest)).textColumns
        = (r0.map Prod.fst).filter (firstRowText r0) := by
  have htake : (r0 :: rest).take 1000 = r0 :: rest.take 999 := rfl
  simp [getCsvSchemaCore, parseCsvCore, htake, classifyColumns_eq_filters]

/-- C9.  `filterData` keeps exactly the rows satisfying every listed
condition (conjunction); an empty filter list returns all rows (and the
headers) unchanged; and a filter whose regex pattern the RegExp engine
rejects evaluates to false on every row instead of raising. -/
theorem filterData_conjunction_empty_and_invalid_regex
    (regexImpl : JStr → Option (JStr → Bool)) (data : ParsedCsvData)
    (filters : List CsvFilter) :
    (∀ row, row ∈ (filterData regexImpl data filters).rows ↔
        row ∈ data.rows ∧ ∀ f ∈ filters, evalFilter regexImpl row f = true)
    ∧ (filterData regexImpl data []).rows = data.rows
    ∧ (filterData regexImpl data []).headers = data.headers
    ∧ (∀ f row, f.operator = FilterOp.regex → regexImpl f.value = none →
        evalFilter regexImpl row f = false) := by
  refine ⟨?_, by simp [filterData], by simp [filterData], ?_⟩
  · intro row
    simp [filterData, List.mem_filter, List.all_eq_true]
  · intro f row hop himpl
    simp [evalFilter, hop, himpl]

/-- Witness for C9: with a RegExp engine rejecting the pattern, the regex
condition is false on a concrete row. -/
theorem filterData_conjunction_empty_and_invalid_regex_witness :
    evalFilter (fun _ => none) [("a", "x".data)] ⟨"a", FilterOp.regex, "[".data⟩ = false :=
  (filterData_conjunction_empty_and_invalid_regex (fun _ => none) ⟨[], [], 0⟩ []).2.2.2
    ⟨"a", FilterOp.regex, "[".data⟩ [("a", "x".data)] rfl rfl

/-- Helper: `dropWhile` never lengthens a list. -/
theorem dropWhileLenLe (p : Char → Bool) (l : JStr) : (l.dropWhile p).length ≤ l.length := by
  induction l with
  | nil => simp
  | cons c cs ih =>
    by_cases h : p c
    · simp [List.dropWhile_cons, h]; omega
    · simp [List.dropWhile_cons, h]

/-- Helper: consuming an optional quote never lengthens a list. -/
theorem afterOptQuoteLenLe (l : JStr) : (afterOptQuote l).length ≤ l.length := by
  cases l with
  | nil => simp [afterOptQuote]
  | cons q r2 =>
    by_cases h : isQuoteChar q <;> simp [afterOptQuote, h]

/-- Helper: a successful table-name match strictly shortens the input. -/
theorem matchTableNameLt {cs rem : JStr} (h : matchTableName cs = some rem) :
    rem.length < cs.length := by
  cases cs with
  | nil => simp [matchTableName] at h
  | cons c rest =>
    by_cases hq : isQuoteChar c
    · cases rest with
      | nil => simp [matchTableName, hq] at h
      | cons d rest2 =>
        by_cases hw : isWordChar d
        · simp only [matchTableName, hq, hw, if_true] at h
          cases h
          have h1 := afterOptQuoteLenLe (rest2.dropWhile isWordChar)
          have h2 := dropWhileLenLe isWordChar rest2
          simp only [List.length_cons]
          omega
        · simp [matchTableName, hq, hw] at h
    · by_cases hw : isWordChar c
      · simp only [matchTableName, hq, hw, if_true, if_false] at h
        cases h
        have h1 := afterOptQuoteLenLe (rest.dropWhile isWordChar)
        have h2 := dropWhileLenLe isWordChar rest
        simp only [List.length_cons]
        omega
      · simp [matchTableName, hq, hw] at h

/-- Helper: a successful match of the pattern tail strictly shortens. -/
theorem matchFromTailLt {rest rem : JStr} (h : matchFromTail rest = some rem) :
    rem.length < rest.length + 1 := by
  cases rest with
  | nil => simp [matchFromTail] at h
  | cons c rest2 =>
    by_cases hw : c.isWhitespace
    · simp only [matchFromTail, hw, if_true] at h
      have h1 := matchTableNameLt h
      have h2 := dropWhileLenLe Char.isWhitespace (c :: rest2)
      simp only [List.length_cons] at h2 ⊢
      omega
    · simp [matchFromTail, hw] at h

/-- Helper: a successful match of the whole rewrite pattern strictly
shortens the input, so the scan always terminates with fuel to spare. -/
theorem matchFromAtLt {cs rem : JStr} (h : matchFromAt cs = some rem) :
    rem.length < cs.length := by
  rcases cs with _ | ⟨f, _ | ⟨r, _ | ⟨o, _ | ⟨m, rest⟩⟩⟩⟩ <;>
      simp only [matchFromAt] at h <;> try exact Option.noConfusion h
  by_cases hc : f.toLower = 'f' ∧ r.toLower = 'r' ∧ o.toLower = 'o' ∧ m.toLower = 'm'
  · rw [if_pos hc] at h
    have := matchFromTailLt h
    simp only [List.length_cons]
    omega
  · rw [if_neg hc] at h
    cases h

/-- Helper: the scan of an empty text is empty at any fuel. -/
theorem replaceFromAuxF_nil (fuel : Nat) : replaceFromAuxF fuel [] = [] := by
  cases fuel <;> rfl

/-- Helper: one scan step, unfolded. -/
theorem replaceFromAuxF_cons (fuel : Nat) (c : Char) (cs : JStr) :
    replaceFromAuxF (fuel + 1) (c :: cs)
      = match matchFromAt (c :: cs) with
        | some rem => fromReplacement ++ replaceFromAuxF fuel rem
        | none => c :: replaceFromAuxF fuel cs := rfl

/-- Helper: scan step on a position where the pattern matches. -/
theorem replaceFromAuxF_step_match (fuel : Nat) (c : Char) (cs rem : JStr)
    (h : matchFromAt (c :: cs) = some rem) :
    replaceFromAuxF (fuel + 1) (c :: cs) = fromReplacement ++ replaceFromAuxF fuel rem := by
  rw [replaceFromAuxF_cons, h]

/-- Helper: scan step on a position where the pattern does not match. -/
theorem replaceFromAuxF_step_skip (fuel : Nat) (c : Char) (cs : JStr)
    (h : matchFromAt (c :: cs) = none) :
    replaceFromAuxF (fuel + 1) (c :: cs) = c :: replaceFromAuxF fuel cs := by
  rw [replaceFromAuxF_cons, h]

/-- Helper: the fuel argument is irrelevant as long as it covers the text
length — the scan is really a function of the text alone, and
`jsReplaceFromAll`'s choice `fuel = length` never hits the exhaustion
branch. -/
theorem replaceFromAuxF_fuel (fuel₁ : Nat) :
    ∀ (l : JStr) (fuel₂ : Nat), l.length ≤ fuel₁ → l.length ≤ fuel₂ →
      replaceFromAuxF fuel₁ l = replaceFromAuxF fuel₂ l := by
  induction fuel₁ with
  | zero =>
    intro l fuel₂ h1 _
    have hl : l = [] := by
      cases l with
      | nil => rfl
      | cons c cs => simp at h1
    subst hl
    rw [replaceFromAuxF_nil, replaceFromAuxF_nil]
  | succ f ih =>
    intro l fuel₂ h1 h2
    cases l with
    | nil => rw [replaceFromAuxF_nil, replaceFromAuxF_nil]
    | cons c cs =>
      cases fuel₂ with
      | zero => simp at h2
      | succ g =>
        rw [replaceFromAuxF_cons, replaceFromAuxF_cons]
        cases hm : matchFromAt (c :: cs) with
        | some rem =>
          have hlt := matchFromAtLt hm
          simp only [List.length_cons] at hlt h1 h2
          exact congrArg (fun x => fromReplacement ++ x) (ih rem g (by omega) (by omega))
        | none =>
          simp only [List.length_cons] at h1 h2
          exact congrArg (fun x => c :: x) (ih cs g (by omega) (by omega))

/-- Helper: the pattern never matches at a position not starting with an
`f` or `F`. -/
theorem matchFromAt_not_f {c : Char} (cs : JStr) (h : ¬ c.toLower = 'f') :
    matchFromAt (c :: cs) = none := by
  rcases cs with _ | ⟨r, _ | ⟨o, _ | ⟨m, rest⟩⟩⟩ <;> simp [matchFromAt, h]

/-- Helper: the pattern matches `FROM t` at the head, consuming up to the
table name and leaving the following text. -/
theorem matchFromAt_from_t (d : JStr) :
    matchFromAt ('F' :: 'R' :: 'O' :: 'M' :: ' ' :: 't' :: ' ' :: d) = some (' ' :: d) := by
  have e1 : ('F'.toLower = 'f' ∧ 'R'.toLower = 'r' ∧ 'O'.toLower = 'o' ∧ 'M'.toLower = 'm') := by
    decide
  have e2 : (' '.isWhitespace : Bool) = true := by decide
  have e3 : Char.isWhitespace 't' = false := by decide
  have e4 : isQuoteChar 't' = false := by decide
  have e5 : isWordChar 't' = true := by decide
  have e6 : isWordChar ' ' = false := by decide
  have e7 : isQuoteChar ' ' = false := by decide
  simp [matchFromAt, matchFromTail, matchTableName, afterOptQuote, List.dropWhile_cons,
        e1, e2, e3, e4, e5, e6, e7]

/-- Helper: the scan rewrites all `n` table references of the query
family, given enough fuel. -/
theorem replaceFrom_fromQuery (n : Nat) :
    ∀ fuel, (fromQueryChars n).length ≤ fuel →
      replaceFromAuxF fuel (fromQueryChars n) = fromQueryRewrittenChars n := by
  induction n with
  | zero =>
    intro fuel _
    simpa [fromQueryChars, fromQueryRewrittenChars] using replaceFromAuxF_nil fuel
  | succ n ih =>
    intro fuel hf
    have hdata : fromQueryChars (n + 1)
        = 'F' :: 'R' :: 'O' :: 'M' :: ' ' :: 't' :: ' ' :: fromQueryChars n := rfl
    rw [hdata] at hf ⊢
    simp only [List.length_cons] at hf
    match fuel, hf with
    | g + 2, hf =>
      rw [replaceFromAuxF_step_match (g + 1) _ _ _ (matchFromAt_from_t (fromQueryChars n)),
          replaceFromAuxF_step_skip g _ _ (matchFromAt_not_f (fromQueryChars n) (by decide)),
          ih g (by omega)]
      show fromReplacement ++ ' ' :: fromQueryRewrittenChars n = fromQueryRewrittenChars (n + 1)
      rfl

/-- C5 counterexample.  On a query containing two table references, the
rewrite inside `executeSqlQuery` replaces BOTH (the source regex carries
the global flag), so the executed query differs from either
single-substitution result: the claim that exactly one table-name
occurrence is replaced is false. -/
theorem executeSqlQuery_rewrites_every_from_clause :
    (executeSqlQuery (fun _ => some ⟨["a"], [[("a", "1".data)]], 1⟩) (fun _ _ => .ok [])
        "r1" "SELECT a FROM t1 WHERE a IN (SELECT b FROM t2)").2
      = [SqlEffect.loadCsv "r1", SqlEffect.createDb, SqlEffect.createTable,
         SqlEffect.insertRows 1,
         SqlEffect.execSql "SELECT a FROM csv_data WHERE a IN (SELECT b FROM csv_data)",
         SqlEffect.closeDb]
    ∧ ("SELECT a FROM csv_data WHERE a IN (SELECT b FROM csv_data)"
        ≠ "SELECT a FROM csv_data WHERE a IN (SELECT b FROM t2)")
    ∧ ("SELECT a FROM csv_data WHERE a IN (SELECT b FROM csv_data)"
        ≠ "SELECT a FROM t1 WHERE a IN (SELECT b FROM csv_data)") := by
  decide

/-- C5 amended.  The table-name rewrite is a GLOBAL case-insensitive
substitution: for a query containing any number `n` of `FROM t` table
references, every one of them — not just the first — is rewritten to
`FROM csv_data`. -/
theorem jsReplaceFromAll_replaces_all_from_references (n : Nat) :
    jsReplaceFromAll ⟨fromQueryChars n⟩ = ⟨fromQueryRewrittenChars n⟩ := by
  unfold jsReplaceFromAll
  exact congrArg String.mk (replaceFrom_fromQuery n _ le_rfl)

/-- C6.  For a session identifier that names no existing session,
`streamAgent` fails immediately with the session-not-found error: the
stores are returned untouched and the effect log is empty — no user
message is created, no model invocation happens, and no conversation
state is written. -/
theorem streamAgent_unknown_session_fails_before_any_work
    (model : List LMsg → ModelResponse) (toolExec : String → JStr)
    (sysPrompt : JStr) (st : SystemState) (sessionId : String) (userMessage : JStr)
    (h : sessionId ∉ st.sessions) :
    runStreamAgent model toolExec sysPrompt st sessionId userMessage
      = (.error (AgentError.sessionNotFound sessionId), st, []) := by
  simp [runStreamAgent, h]

/-- Witness for C6 on an empty session store. -/
theorem streamAgent_unknown_session_fails_before_any_work_witness :
    runStreamAgent alwaysToolModel (fun _ => []) [] ⟨[], []⟩ "missing" "hello".data
      = (.error (AgentError.sessionNotFound "missing"), ⟨[], []⟩, []) :=
  streamAgent_unknown_session_fails_before_any_work _ _ _ _ _ _ (by simp)

/-- C2.  Evaluation of `agentNode` on a model stub that requests a tool
call on every round: the loop does terminate, with exactly 5 model
invocations (the configured cap), but the final assistant turn carries
the EMPTY string — not the stub's non-empty last assistant text
`thinking` — because after a tool round the last accumulated message is
a tool message, so the post-loop `instanceof AIMessage` fallback never
fires.  This contradicts the claim (and the source's own comment, which
says the last response is used when the cap is hit). -/
theorem agentNode_cap_produces_empty_final_answer :
    capRun.2.2.2 = 5
    ∧ capRun.1.getLast? = some ⟨Role.assistant, []⟩
    ∧ lastAiContent capRun.2.1 = some "thinking".data
    ∧ "thinking".data ≠ ([] : JStr) := by
  decide

/-- C4 counterexample.  In the spec's tool-call-loop scenario — the model
issues exactly one tool call and then answers in plain text — the message
store at the end of the execution holds exactly TWO new turns (the user
turn and the final assistant turn): the assistant-with-tool-call turn and
the tool-result turn are never persisted, so the claim of exactly 4 new
turns is false. -/
theorem streamAgent_one_tool_call_persists_two_not_four_turns :
    oneToolRun.2.1.messages
      = [⟨"s1", Role.user, "what is the average Amount?".data⟩,
         ⟨"s1", Role.assistant, "The average is 116.67".data⟩]
    ∧ oneToolRun.2.1.messages.length = 2
    ∧ (2 : Nat) ≠ 4 := by
  decide

/-- Helper: one loop iteration of `agentNode`, unfolded. -/
theorem agentLoopGo_succ (model : List LMsg → ModelResponse) (toolExec : String → JStr)
    (fuel calls : Nat) (msgs : List LMsg) :
    agentLoopGo model toolExec (fuel + 1) msgs calls
      = (let resp := model msgs
         let msgs1 := msgs ++ [.aiMsg resp.content resp.toolCalls]
         if resp.toolCalls = [] then (msgs1, some resp.content, calls + 1)
         else agentLoopGo model toolExec fuel
           (msgs1 ++ resp.toolCalls.map (fun tc => .toolMsg (toolExec tc))) (calls + 1)) := rfl

/-- Helper: history conversion never produces a tool message. -/
theorem isToolMsg_toLangChain (m : Message) : isToolMsg (toLangChainMsg m) = false := by
  cases hm : m.role <;> simp [toLangChainMsg, hm, isToolMsg]

/-- Helper: the initial LangChain message list of `agentNode` (system
prompt, converted history, current human query) contains no tool
message. -/
theorem initMsgs_no_tool (s q : JStr) (hist : List Message) :
    (LMsg.systemMsg s :: (hist.map toLangChainMsg ++ [LMsg.humanMsg q])).any isToolMsg
      = false := by
  rw [List.any_eq_false]
  intro x hx
  simp only [List.mem_cons, List.mem_append, List.mem_map, List.mem_singleton] at hx
  rcases hx with rfl | ⟨⟨m, hm, rfl⟩ | (rfl | h0)⟩
  · simp [isToolMsg]
  · simp [isToolMsg_toLangChain]
  · simp [isToolMsg]
  · exact absurd h0 (List.not_mem_nil x)

/-- Helper: on a tool-free message list, the one-tool stub drives the
loop through exactly one tool round and one plain-text round. -/
theorem agentLoopGo_oneTool (t : JStr) (toolExec : String → JStr) (n calls : Nat)
    (msgs : List LMsg) (h : msgs.any isToolMsg = false) :
    agentLoopGo (oneToolModel t) toolExec (n + 2) msgs calls
      = (msgs ++ [LMsg.aiMsg "calling tool".data ["execute_sql_query"],
                  LMsg.toolMsg (toolExec "execute_sql_query"), LMsg.aiMsg t []],
         some t, calls + 2) := by
  have step1 : agentLoopGo (oneToolModel t) toolExec (n + 2) msgs calls
      = agentLoopGo (oneToolModel t) toolExec (n + 1)
          (msgs ++ [LMsg.aiMsg "calling tool".data ["execute_sql_query"],
                    LMsg.toolMsg (toolExec "execute_sql_query")]) (calls + 1) := by
    rw [show n + 2 = (n + 1) + 1 from rfl, agentLoopGo_succ]
    simp [oneToolModel, h]
  rw [step1, agentLoopGo_succ]
  have h2 : (msgs ++ [LMsg.aiMsg "calling tool".data ["execute_sql_query"],
      LMsg.toolMsg (toolExec "execute_sql_query")]).any isToolMsg = true := by
    simp [List.any_append, isToolMsg]
  simp [oneToolModel, h2, List.append_assoc]

/-- Helper: `saveMessageNode` on a state ending in the user turn and the
final assistant turn, over a table already containing the matching user
record but no matching assistant record: only the assistant record is
inserted. -/
theorem saveMessageNode_user_and_assistant (sid : String) (hist : List Message)
    (q t : JStr) (db : List MessageRecord)
    (hu : db.any (recordMatches sid ⟨Role.user, q⟩) = true)
    (ha : db.any (recordMatches sid ⟨Role.assistant, t⟩) = false) :
    saveMessageNode sid (hist ++ [⟨Role.user, q⟩, ⟨Role.assistant, t⟩]) db
      = db ++ [⟨sid, Role.assistant, t⟩] := by
  have hlen : (hist ++ [(⟨Role.user, q⟩ : Message), ⟨Role.assistant, t⟩]).length - 2
      = hist.length := by simp
  have hdrop : (hist ++ [(⟨Role.user, q⟩ : Message), ⟨Role.assistant, t⟩]).drop
      ((hist ++ [(⟨Role.user, q⟩ : Message), ⟨Role.assistant, t⟩]).length - 2)
      = [⟨Role.user, q⟩, ⟨Role.assistant, t⟩] := by
    rw [hlen]
    exact List.drop_left hist _
  simp only [saveMessageNode, hdrop]
  rw [if_neg (by simp)]
  simp only [List.foldl_cons, List.foldl_nil]
  rw [if_pos hu, if_neg (by simp [ha])]

/-- C4 amended.  For an execution in which the model issues exactly one
tool call and then answers with text `t` (not already present as an
assistant record of this session), the message store gains exactly TWO
new records, appended in order: the user turn — written by
`streamAgent`'s own pre-insert, then found and skipped by the save node's
duplicate check — and the final assistant turn, each by its own
guarded insert.  The assistant-with-tool-call and tool-result turns are
never persisted. -/
theorem streamAgent_persists_user_and_final_assistant_turns
    (toolExec : String → JStr) (sysPrompt : JStr) (st : SystemState)
    (sid : String) (q t : JStr)
    (hs : sid ∈ st.sessions)
    (ht : st.messages.any (recordMatches sid ⟨Role.assistant, t⟩) = false) :
    (runStreamAgent (oneToolModel t) toolExec sysPrompt st sid q).2.1.messages
      = st.messages ++ [⟨sid, Role.user, q⟩, ⟨sid, Role.assistant, t⟩] := by
  simp only [runStreamAgent, if_pos hs]
  simp only [agentNodeCore]
  rw [show (5 : Nat) = 3 + 2 from rfl,
      agentLoopGo_oneTool t toolExec 3 0 _ (initMsgs_no_tool sysPrompt q _)]
  simp only []
  have hu : (st.messages ++ [(⟨sid, Role.user, q⟩ : MessageRecord)]).any
      (recordMatches sid ⟨Role.user, q⟩) = true := by
    simp [List.any_append, recordMatches]
  have ha : (st.messages ++ [(⟨sid, Role.user, q⟩ : MessageRecord)]).any
      (recordMatches sid ⟨Role.assistant, t⟩) = false := by
    simp [List.any_append, recordMatches, ht]
  rw [saveMessageNode_user_and_assistant sid _ q t _ hu ha]
  simp [List.append_assoc]

/-- Witness for C4's amended claim: a session with one pre-existing
record gains exactly the user and final assistant records. -/
theorem streamAgent_persists_user_and_final_assistant_turns_witness :
    (runStreamAgent (oneToolModel "two".data) (fun _ => "r".data) []
        ⟨["s"], [⟨"s", Role.user, "old".data⟩]⟩ "s" "q".data).2.1.messages
      = [⟨"s", Role.user, "old".data⟩]
          ++ [⟨"s", Role.user, "q".data⟩, ⟨"s", Role.assistant, "two".data⟩] :=
  streamAgent_persists_user_and_final_assistant_turns (fun _ => "r".data) []
    ⟨["s"], [⟨"s", Role.user, "old".data⟩]⟩ "s" "q".data "two".data
    (by simp) (by decide)

/-- Helper: one streaming-loop step on a stream-chunk event, unfolded. -/
theorem processEvents_stream_cons (c : JStr) (rest : List StreamEvent) (acc : JStr) :
    processEvents (StreamEvent.chatModelStream (some c) :: rest) acc
      = if c ≠ [] then c :: processEvents rest (acc ++ c) else processEvents rest acc := rfl

/-- Helper: one streaming-loop step on a model-end event, unfolded. -/
theorem processEvents_end_cons (c : JStr) (rest : List StreamEvent) (acc : JStr) :
    processEvents (StreamEvent.chatModelEnd (some c) :: rest) acc
      = if c ≠ [] ∧ c ≠ acc then
          (if c.drop acc.length ≠ [] then (c.drop acc.length) :: processEvents rest c
           else processEvents rest acc)
        else processEvents rest acc := rfl

/-- Helper: a run of stream-chunk events yields exactly the non-empty
chunks in order and accumulates their concatenation. -/
theorem processEvents_streams (chunks : List JStr) (evs : List StreamEvent) :
    ∀ acc, processEvents (chunks.map (fun c => StreamEvent.chatModelStream (some c)) ++ evs) acc
      = chunks.filter (fun c => c ≠ []) ++ processEvents evs (acc ++ chunks.flatten) := by
  induction chunks with
  | nil => intro acc; simp [processEvents]
  | cons c cs ih =>
    intro acc
    rw [List.map_cons, List.cons_append, processEvents_stream_cons]
    by_cases hc : c = []
    · subst hc
      rw [if_neg (by simp)]
      simp [ih acc, List.filter_cons]
    · rw [if_pos hc]
      simp [ih (acc ++ c), List.filter_cons, hc, List.append_assoc, List.flatten_cons]

/-- Helper: empty fragments contribute nothing to the concatenation. -/
theorem flatten_filter_ne_nil (chunks : List JStr) :
    (chunks.filter (fun c => !decide (c = []))).flatten = chunks.flatten := by
  induction chunks with
  | nil => rfl
  | cons c cs ih =>
    by_cases hc : c = [] <;> simp [List.filter_cons, hc, ih]

/-- Helper: the model-end event flushes exactly the not-yet-streamed
suffix of the final text, once, and flushes nothing when everything was
already streamed. -/
theorem processEvents_end_flush (acc suffix : JStr) :
    processEvents [StreamEvent.chatModelEnd (some (acc ++ suffix))] acc
      = if suffix = [] then [] else [suffix] := by
  rw [processEvents_end_cons]
  by_cases hs : suffix = []
  · subst hs
    simp [processEvents]
  · have hne : acc ++ suffix ≠ acc := by
      intro hcontra
      have h2 : acc.length + suffix.length = acc.length := by
        simpa using congrArg List.length hcontra
      have h3 : suffix.length = 0 := by omega
      exact hs (List.length_eq_zero.mp h3)
    have hnz : acc ++ suffix ≠ [] := by
      intro hcontra
      exact hs (List.append_eq_nil.mp hcontra).2
    have hdrop : (acc ++ suffix).drop acc.length = suffix := List.drop_left acc suffix
    rw [if_pos ⟨hnz, hne⟩, hdrop, if_pos hs]
    simp [hs, processEvents]


/-- C3.  Streaming completeness of `streamAgent`'s event loop: for any
sequence of streamed chunks followed by the model-end event carrying the
final full text `T` (of which the streamed chunks are a prefix, as the
model contract guarantees), the concatenation of all yielded fragments
equals `T` exactly once — in order, with no duplication and no gap.  The
instance `chunks = []` is the consolidated-final-text case, where the
whole undelivered suffix is flushed once at end-of-call; the instance
`suffix = []` is the fully-incremental case, where the end event flushes
nothing. -/
theorem streamAgent_yields_final_text_exactly_once (chunks : List JStr) (suffix T : JStr)
    (hT : T = chunks.flatten ++ suffix) :
    (processEvents (chunks.map (fun c => StreamEvent.chatModelStream (some c))
        ++ [StreamEvent.chatModelEnd (some T)]) []).flatten = T := by
  subst hT
  rw [processEvents_streams chunks [StreamEvent.chatModelEnd
    (some (chunks.flatten ++ suffix))] []]
  simp only [List.nil_append]
  rw [processEvents_end_flush chunks.flatten suffix]
  by_cases hs : suffix = []
  · subst hs
    simp [flatten_filter_ne_nil]
  · simp [hs, flatten_filter_ne_nil]

/-- Witness for C3: two streamed chunks and a flushed suffix reassemble
the final text `Hello world`. -/
theorem streamAgent_yields_final_text_exactly_once_witness :
    (processEvents (["He".data, "llo".data].map (fun c => StreamEvent.chatModelStream (some c))
        ++ [StreamEvent.chatModelEnd (some "Hello world".data)]) []).flatten
      = "Hello world".data :=
  streamAgent_yields_final_text_exactly_once ["He".data, "llo".data] " world".data
    "Hello world".data (by decide)
